import Mathlib

/-!
# Verification of the ch9329 protocol library

Shallow embedding of the ch9329 crate (src/ch9329/src/lib.rs,
src/ch9329/src/key_code.rs) and of the session transport
(src/ch9329-serialport/src/lib.rs), with theorems settling the
frozen specification claims.

Bytes are modelled as `Nat` values below 256; byte slices as `List Nat`;
fallible operations return `Except`.
-/

namespace Ch9329

/-- The fixed two-byte packet header magic (`HEAD` in src/ch9329/src/lib.rs). -/
def HEAD : List Nat := [0x57, 0xAB]

/-- Error type of the ch9329 crate (`Error` in src/ch9329/src/lib.rs).
The Rust `Utf8` variant carries a `core::str::Utf8Error` payload; the payload
is not inspected anywhere in the crate, so it is not modelled. -/
inductive Error where
  | Utf8
  | Incomplete (n : Nat)
  | InvalidHead
  | InvalidCmd
  | InvalidData
  | InvalidSum
deriving DecidableEq, Repr

instance {ε α : Type} [DecidableEq ε] [DecidableEq α] : DecidableEq (Except ε α) := fun x y =>
  match x, y with
  | .ok a, .ok b => if h : a = b then .isTrue (by rw [h]) else .isFalse (by simp [h])
  | .error a, .error b => if h : a = b then .isTrue (by rw [h]) else .isFalse (by simp [h])
  | .ok _, .error _ => .isFalse (by simp)
  | .error _, .ok _ => .isFalse (by simp)

/-- Wrapping 8-bit checksum (`sum` in src/ch9329/src/lib.rs): the Rust fold
with `overflowing_add` on `u8` is addition modulo 256. -/
def sum (buf : List Nat) : Nat :=
  buf.foldl (fun a b => (a + b) % 256) 0

/-- Frame encoder (`encode` in src/ch9329/src/lib.rs), specialized to a writer
that copies `payload` into the payload region and returns its length.  Every
byte of the returned slice `[0, 5+len+1)` is written before the function
returns, so the result does not depend on the prior contents of the caller
buffer and the buffer argument is elided from the embedding. -/
def encode (addr cmd : Nat) (payload : List Nat) : List Nat :=
  let body := HEAD ++ [addr, cmd, payload.length] ++ payload
  body ++ [sum body]

/-- Frame decoder (`decode` in src/ch9329/src/lib.rs).  Successive ifs mirror
the four validation steps of the source; indices use `List.getD` with default
0, which the guards keep in bounds. -/
def decode (buf : List Nat) : Except Error (Nat × Nat × List Nat) :=
  if buf.length < 5 + 1 then .error (.Incomplete (5 + 1))
  else if buf.take 2 ≠ HEAD then .error .InvalidHead
  else if buf.length < 5 + buf.getD 4 0 + 1 then .error (.Incomplete (5 + buf.getD 4 0 + 1))
  else if buf.getD (5 + buf.getD 4 0) 0 ≠ sum (buf.take (5 + buf.getD 4 0)) then
    .error .InvalidSum
  else .ok (buf.getD 2 0, buf.getD 3 0, (buf.drop 5).take (buf.getD 4 0))

/-! ## Command and response model (src/ch9329/src/lib.rs) -/

/-- `UsbStringType` in src/ch9329/src/lib.rs. -/
inductive UsbStringType where
  | Vendor
  | Product
  | Serial
deriving DecidableEq, Repr

/-- `CommandExecutionStatus` in src/ch9329/src/lib.rs. -/
inductive CommandExecutionStatus where
  | Success
  | ErrTimeout
  | ErrHead
  | ErrCmd
  | ErrSum
  | ErrPara
  | ErrOperate
deriving DecidableEq, Repr

/-- `CommandExecutionStatus::from_u8` in src/ch9329/src/lib.rs. -/
def CommandExecutionStatus.from_u8 (value : Nat) : Option CommandExecutionStatus :=
  if value = 0x00 then some .Success
  else if value = 0xE1 then some .ErrTimeout
  else if value = 0xE2 then some .ErrHead
  else if value = 0xE3 then some .ErrCmd
  else if value = 0xE4 then some .ErrSum
  else if value = 0xE5 then some .ErrPara
  else if value = 0xE6 then some .ErrOperate
  else none

/-- `ParaCfg` in src/ch9329/src/lib.rs.  The two reserved regions keep their
source field names. -/
structure ParaCfg where
  operation_mode : Nat
  serial_communication_mode : Nat
  addr : Nat
  baud_rate : Nat
  todo_0 : List Nat
  vid : Nat
  pid : Nat
  todo_1 : List Nat
deriving DecidableEq, Repr

/-- Big-endian `u16::from_be_bytes`. -/
def u16_be (b0 b1 : Nat) : Nat := b0 * 0x100 + b1

/-- Big-endian `u32::from_be_bytes`. -/
def u32_be (b0 b1 b2 b3 : Nat) : Nat :=
  b0 * 0x1000000 + b1 * 0x10000 + b2 * 0x100 + b3

/-- Continuation byte test for UTF-8 validation. -/
def utf8Cont (b : Nat) : Bool := 0x80 ≤ b && b ≤ 0xBF

/-- UTF-8 validity of a byte list, as checked by `core::str::from_utf8`:
ASCII bytes stand alone; C2-DF start 2-byte sequences; E0, ED, and other
E-row bytes start 3-byte sequences with the restricted second-byte ranges
that exclude overlong forms and surrogates; F0-F4 start 4-byte sequences
bounded at U+10FFFF; everything else is invalid. -/
def utf8Valid : List Nat → Bool
  | [] => true
  | b :: rest =>
    if b < 0x80 then utf8Valid rest
    else if b < 0xC2 then false
    else if b ≤ 0xDF then
      match rest with
      | c1 :: rest2 => utf8Cont c1 && utf8Valid rest2
      | [] => false
    else if b = 0xE0 then
      match rest with
      | c1 :: c2 :: rest2 => (0xA0 ≤ c1 && c1 ≤ 0xBF) && utf8Cont c2 && utf8Valid rest2
      | _ => false
    else if b = 0xED then
      match rest with
      | c1 :: c2 :: rest2 => (0x80 ≤ c1 && c1 ≤ 0x9F) && utf8Cont c2 && utf8Valid rest2
      | _ => false
    else if b ≤ 0xEF then
      match rest with
      | c1 :: c2 :: rest2 => utf8Cont c1 && utf8Cont c2 && utf8Valid rest2
      | _ => false
    else if b = 0xF0 then
      match rest with
      | c1 :: c2 :: c3 :: rest2 =>
        (0x90 ≤ c1 && c1 ≤ 0xBF) && utf8Cont c2 && utf8Cont c3 && utf8Valid rest2
      | _ => false
    else if b ≤ 0xF3 then
      match rest with
      | c1 :: c2 :: c3 :: rest2 => utf8Cont c1 && utf8Cont c2 && utf8Cont c3 && utf8Valid rest2
      | _ => false
    else if b = 0xF4 then
      match rest with
      | c1 :: c2 :: c3 :: rest2 =>
        (0x80 ≤ c1 && c1 ≤ 0x8F) && utf8Cont c2 && utf8Cont c3 && utf8Valid rest2
      | _ => false
    else false

/-- `Response` in src/ch9329/src/lib.rs.  The Rust `GetInfo` variant stores
`data[0]` converted to `char` (an always-successful `u8` widening), modelled
as the raw byte; the `GetUsbString` descriptor is a borrowed `str` view of
the UTF-8 validated payload bytes, modelled as the byte list itself. -/
inductive Response where
  | GetInfo (version : Nat)
  | SendKbGeneralData (status : CommandExecutionStatus)
  | GetParaCfg (cfg : ParaCfg)
  | GetUsbString (type_ : UsbStringType) (descriptor : List Nat)
deriving DecidableEq, Repr

/-- `Response::decode` in src/ch9329/src/lib.rs. -/
def Response.decode (cmd : Nat) (data : List Nat) : Except Error Response :=
  if cmd = 0x81 then
    if data.length = 8 then .ok (.GetInfo (data.getD 0 0))
    else .error .InvalidData
  else if cmd = 0x82 then
    if data.length = 1 then
      match CommandExecutionStatus.from_u8 (data.getD 0 0) with
      | some status => .ok (.SendKbGeneralData status)
      | none => .error .InvalidData
    else .error .InvalidData
  else if cmd = 0x88 then
    if data.length = 50 then
      .ok (.GetParaCfg
        { operation_mode := data.getD 0 0
          serial_communication_mode := data.getD 1 0
          addr := data.getD 2 0
          baud_rate := u32_be (data.getD 3 0) (data.getD 4 0) (data.getD 5 0) (data.getD 6 0)
          todo_0 := (data.drop 7).take 4
          vid := u16_be (data.getD 11 0) (data.getD 12 0)
          pid := u16_be (data.getD 13 0) (data.getD 14 0)
          todo_1 := (data.drop 15).take 35 })
    else .error .InvalidData
  else if cmd = 0x8A then
    if 2 ≤ data.length then
      match (if data.getD 0 0 = 0x00 then .ok UsbStringType.Vendor
             else if data.getD 0 0 = 0x01 then .ok UsbStringType.Product
             else if data.getD 0 0 = 0x02 then .ok UsbStringType.Serial
             else .error Error.InvalidData : Except Error UsbStringType) with
      | .ok type_ =>
        if data.length = 2 + data.getD 1 0 then
          if utf8Valid ((data.drop 2).take (data.getD 1 0)) then
            .ok (.GetUsbString type_ ((data.drop 2).take (data.getD 1 0)))
          else .error .Utf8
        else .error .InvalidData
      | .error e => .error e
    else .error .InvalidData
  else .error .InvalidCmd

/-- `Command` in src/ch9329/src/lib.rs.  `KeyModifiers` is a `bitflags` u8
bit-set; it is modelled as its byte value (`modifiers`). -/
inductive Command where
  | GetInfo
  | SendKbGeneralData (modifiers : Nat) (codes : List Nat)
  | SendMyHidData (data : List Nat)
  | GetParaCfg
  | GetUsbString (type_ : UsbStringType)
deriving DecidableEq, Repr

/-- `Command::cmd` in src/ch9329/src/lib.rs. -/
def Command.cmd : Command → Nat
  | .GetInfo => 0x01
  | .SendKbGeneralData _ _ => 0x02
  | .SendMyHidData _ => 0x06
  | .GetParaCfg => 0x08
  | .GetUsbString _ => 0x0A

/-- `Command::data` in src/ch9329/src/lib.rs, modelled as the byte list the
source writes into the payload region (whose length it returns).  For
`SendKbGeneralData`, the source zips the six slots `buf[2..8]` with the code
iterator chained with an infinite repeat of zero, which writes the first six
elements of `codes ++ [0, 0, 0, 0, 0, 0]`. -/
def Command.data : Command → List Nat
  | .GetInfo => []
  | .GetParaCfg => []
  | .SendKbGeneralData modifiers codes =>
      modifiers :: 0x00 :: (codes ++ List.replicate 6 0x00).take 6
  | .SendMyHidData data => data
  | .GetUsbString type_ =>
      [match type_ with
       | .Vendor => 0x00
       | .Product => 0x01
       | .Serial => 0x02]

/-- `KeyCode::from_ascii` in src/ch9329/src/key_code.rs: a total function
from a byte to an optional (shift-required, key code) pair.  The source is an
ordered `match` with disjoint arms; each arm becomes one conditional. -/
def KeyCode.from_ascii (value : Nat) : Option (Bool × Nat) :=
  if value = 0x20 then some (false, 0x2C)
  else if value = 0x21 then some (true, 0x1E)
  else if value = 0x22 then some (true, 0x34)
  else if value = 0x23 then some (true, 0x20)
  else if value = 0x24 then some (true, 0x21)
  else if value = 0x25 then some (true, 0x22)
  else if value = 0x26 then some (true, 0x24)
  else if value = 0x27 then some (false, 0x34)
  else if value = 0x28 then some (true, 0x26)
  else if value = 0x29 then some (true, 0x27)
  else if value = 0x2A then some (true, 0x25)
  else if value = 0x2B then some (true, 0x2E)
  else if value = 0x2C then some (false, 0x36)
  else if value = 0x2D then some (false, 0x2D)
  else if value = 0x2E then some (false, 0x37)
  else if value = 0x2F then some (false, 0x38)
  else if value = 0x30 then some (false, 0x27)
  else if 0x31 ≤ value ∧ value ≤ 0x39 then some (false, 0x1E + (value - 0x31))
  else if value = 0x3D then some (false, 0x2E)
  else if 0x41 ≤ value ∧ value ≤ 0x5A then some (true, 0x04 + (value - 0x41))
  else if value = 0x5B then some (false, 0x2F)
  else if value = 0x5C then some (false, 0x31)
  else if value = 0x5D then some (false, 0x30)
  else if value = 0x5E then some (true, 0x23)
  else if value = 0x5F then some (true, 0x2D)
  else if value = 0x60 then some (false, 0x35)
  else if 0x61 ≤ value ∧ value ≤ 0x7A then some (false, 0x04 + (value - 0x61))
  else if value = 0x7B then some (true, 0x2F)
  else if value = 0x7C then some (true, 0x31)
  else if value = 0x7D then some (true, 0x30)
  else if value = 0x7E then some (true, 0x35)
  else none

end Ch9329

namespace Ch9329Serialport

open Ch9329

/-- The io error kinds `Device::recv` and `Device::clear` distinguish
(src/ch9329-serialport/src/lib.rs): a zero-byte read becomes
`UnexpectedEof`; a blocking read that fails (for example a timeout)
propagates through the question-mark operator. -/
inductive IoErrorKind where
  | UnexpectedEof
  | TimedOut
deriving DecidableEq, Repr

/-- `Error` in src/ch9329-serialport/src/lib.rs, restricted to the variants
`Device::recv` can produce. -/
inductive DevError where
  | Ch9329 (e : Ch9329.Error)
  | Io (kind : IoErrorKind)
deriving DecidableEq, Repr

/-- Loop body of `Device::recv` (src/ch9329-serialport/src/lib.rs lines
56-63).  The transport is modelled by the byte sequence `stream` it delivers
in order and a schedule `sched` giving how many bytes each successive
blocking read returns.  `len` is the count of bytes accumulated so far, so
the receive buffer prefix is `stream.take len`.  A read into
`buf[len..total]` returns at most `total - len` bytes and at most the bytes
the transport still holds, hence the two `min`s; an effective read of zero
bytes is the source's `n == 0` end-of-stream case.  An exhausted schedule
models the blocking read failing (for example a timeout), which the source
propagates with the question-mark operator. -/
def recvGo (stream : List Nat) : List Nat → Nat → Except DevError (Nat × Response)
  | sched, len =>
    match Ch9329.decode (stream.take len) with
    | .error (.Incomplete total) =>
      match sched with
      | [] => .error (.Io .TimedOut)
      | n :: rest =>
        if min (min n (total - len)) (stream.length - len) = 0 then
          .error (.Io .UnexpectedEof)
        else recvGo stream rest (len + min (min n (total - len)) (stream.length - len))
    | .error e => .error (.Ch9329 e)
    | .ok (addr, cmd, data) =>
      match Response.decode cmd data with
      | .ok resp => .ok (addr, resp)
      | .error e => .error (.Ch9329 e)

/-- `Device::recv` (src/ch9329-serialport/src/lib.rs lines 53-68): the
accumulated length starts at zero on every call. -/
def recv (sched stream : List Nat) : Except DevError (Nat × Response) :=
  recvGo stream sched 0

end Ch9329Serialport

namespace Ch9329

/-! ## Helper lemmas about lists and the checksum -/

theorem getD_take_of_lt (l : List Nat) (k i : Nat) (h : i < k) :
    (l.take k).getD i 0 = l.getD i 0 := by
  simp [List.getD_eq_getElem?_getD, List.getElem?_take_of_lt h]

theorem getD_set_self (l : List Nat) (i v : Nat) (h : i < l.length) :
    (l.set i v).getD i 0 = v := by
  simp [List.getD_eq_getElem?_getD, List.getElem?_set_eq h]

theorem getD_set_ne (l : List Nat) (i j v : Nat) (h : i ≠ j) :
    (l.set i v).getD j 0 = l.getD j 0 := by
  simp [List.getD_eq_getElem?_getD, List.getElem?_set_ne h]

theorem getD_lt_of_forall (l : List Nat) (j : Nat) (hj : j < l.length)
    (h : ∀ b ∈ l, b < 256) : l.getD j 0 < 256 := by
  rw [List.getD_eq_getElem l 0 hj]
  exact h _ (List.getElem_mem hj)

theorem getD_cons_add5 (a b c d e : Nat) (l : List Nat) (n : Nat) :
    (a :: b :: c :: d :: e :: l).getD (5 + n) 0 = l.getD n 0 := by
  have h : 5 + n = n + 1 + 1 + 1 + 1 + 1 := by omega
  rw [h]
  simp [List.getD_cons_succ]

theorem take_cons_add5 (a b c d e : Nat) (l : List Nat) (n : Nat) :
    (a :: b :: c :: d :: e :: l).take (5 + n) = a :: b :: c :: d :: e :: l.take n := by
  have h : 5 + n = n + 1 + 1 + 1 + 1 + 1 := by omega
  rw [h]
  simp [List.take_succ_cons]

theorem sum_foldl (l : List Nat) : ∀ a : Nat,
    l.foldl (fun x y => (x + y) % 256) (a % 256) = (a + l.sum) % 256 := by
  induction l with
  | nil => intro a; simp
  | cons b t ih =>
    intro a
    simp only [List.foldl_cons, List.sum_cons]
    rw [Nat.mod_add_mod, ih (a + b)]
    omega

theorem sum_eq_sum_mod (l : List Nat) : sum l = l.sum % 256 := by
  have h := sum_foldl l 0
  simpa [sum] using h

theorem sum_lt (l : List Nat) : sum l < 256 := by
  rw [sum_eq_sum_mod]
  omega

theorem sum_set_add (l : List Nat) (i v : Nat) (h : i < l.length) :
    (l.set i v).sum + l.getD i 0 = l.sum + v := by
  induction l generalizing i with
  | nil => simp at h
  | cons b t ih =>
    cases i with
    | zero => simp; omega
    | succ j =>
      have hj : j < t.length := by simpa using h
      have ih2 := ih j hj
      simp only [List.set_cons_succ, List.sum_cons, List.getD_cons_succ] at ih2 ⊢
      omega

theorem sum_set_ne (l : List Nat) (i v : Nat) (hi : i < l.length)
    (hv : v < 256) (hb : l.getD i 0 < 256) (hne : v ≠ l.getD i 0) :
    sum (l.set i v) ≠ sum l := by
  have h1 := sum_set_add l i v hi
  have h2 := sum_eq_sum_mod (l.set i v)
  have h3 := sum_eq_sum_mod l
  intro heq
  omega

/-! ## Shape lemmas about encode -/

theorem encode_eq_cons (addr cmd : Nat) (p : List Nat) :
    encode addr cmd p =
      0x57 :: 0xAB :: addr :: cmd :: p.length ::
        (p ++ [sum (0x57 :: 0xAB :: addr :: cmd :: p.length :: p)]) := by
  simp [encode, HEAD]

theorem length_encode (addr cmd : Nat) (p : List Nat) :
    (encode addr cmd p).length = 6 + p.length := by
  rw [encode_eq_cons]
  simp [List.length_cons, List.length_append]
  omega

theorem encode_take_two (addr cmd : Nat) (p : List Nat) :
    (encode addr cmd p).take 2 = HEAD := by
  rw [encode_eq_cons]
  rfl

theorem encode_getD_two (addr cmd : Nat) (p : List Nat) :
    (encode addr cmd p).getD 2 0 = addr := by
  rw [encode_eq_cons]
  rfl

theorem encode_getD_three (addr cmd : Nat) (p : List Nat) :
    (encode addr cmd p).getD 3 0 = cmd := by
  rw [encode_eq_cons]
  rfl

theorem encode_getD_four (addr cmd : Nat) (p : List Nat) :
    (encode addr cmd p).getD 4 0 = p.length := by
  rw [encode_eq_cons]
  rfl

theorem encode_getD_checksum (addr cmd : Nat) (p : List Nat) :
    (encode addr cmd p).getD (5 + p.length) 0 =
      sum (0x57 :: 0xAB :: addr :: cmd :: p.length :: p) := by
  rw [encode_eq_cons, getD_cons_add5,
    List.getD_append_right p _ 0 p.length (Nat.le_refl _)]
  simp

theorem encode_take_body (addr cmd : Nat) (p : List Nat) :
    (encode addr cmd p).take (5 + p.length) =
      0x57 :: 0xAB :: addr :: cmd :: p.length :: p := by
  rw [encode_eq_cons, take_cons_add5, List.take_left]

theorem encode_payload (addr cmd : Nat) (p : List Nat) :
    ((encode addr cmd p).drop 5).take p.length = p := by
  rw [encode_eq_cons]
  exact List.take_left p _

theorem decode_encode (addr cmd : Nat) (p : List Nat) :
    decode (encode addr cmd p) = .ok (addr, cmd, p) := by
  have hlen := length_encode addr cmd p
  have hhead := encode_take_two addr cmd p
  unfold decode
  rw [if_neg (by omega), if_neg (not_not_intro hhead), encode_getD_four,
    if_neg (by omega), encode_getD_checksum, encode_take_body,
    if_neg (not_not_intro rfl), encode_getD_two, encode_getD_three,
    encode_payload]

/-! ## Claim C1: encode and decode round-trip -/

/-- C1: for every address byte, opcode byte, and payload of at most 64 bytes,
encoding (into an at-least-70-byte buffer, with a writer that writes exactly
the payload and returns its length) and then decoding the returned frame
slice yields Ok with the same address, opcode, and payload.  In the Nat
model the equation holds for arbitrary values; the hypotheses pin the domain
the claim quantifies over, inside which the Rust encode cannot overflow its
at-least-70-byte buffer or its u8 length field. -/
theorem encode_decode_roundtrip (addr cmd : Nat) (p : List Nat)
    (ha : addr < 256) (hc : cmd < 256) (hp : ∀ b ∈ p, b < 256)
    (hl : p.length ≤ 64) :
    decode (encode addr cmd p) = .ok (addr, cmd, p) :=
  decode_encode addr cmd p

/-- Witness for C1 at the frame from the crate's own `test_encode`. -/
theorem encode_decode_roundtrip_witness :
    decode (encode 0x00 0x02 [0x00, 0x00, 0x04, 0x00, 0x00, 0x00, 0x00, 0x00]) =
      .ok (0x00, 0x02, [0x00, 0x00, 0x04, 0x00, 0x00, 0x00, 0x00, 0x00]) :=
  encode_decode_roundtrip 0x00 0x02 [0x00, 0x00, 0x04, 0x00, 0x00, 0x00, 0x00, 0x00]
    (by decide) (by decide) (by decide) (by decide)

/-! ## Claim C2: decode validates in a fixed order -/

/-- C2: decode validates in this exact order: a buffer shorter than 6 bytes
fails with Incomplete 6; otherwise a wrong two-byte magic fails with
InvalidHead; otherwise, with the length read from offset 4, a buffer shorter
than 5+length+1 bytes fails with Incomplete (5+length+1); otherwise a
checksum byte differing from the wrapping 8-bit sum of the preceding bytes
fails with InvalidSum; otherwise decode returns the address at offset 2, the
opcode at offset 3, and the payload sub-slice [5, 5+length). -/
theorem decode_validation_order :
    (∀ buf : List Nat, buf.length < 6 → decode buf = .error (.Incomplete 6))
    ∧ (∀ buf : List Nat, 6 ≤ buf.length → buf.take 2 ≠ HEAD →
        decode buf = .error .InvalidHead)
    ∧ (∀ buf : List Nat, 6 ≤ buf.length → buf.take 2 = HEAD →
        buf.length < 5 + buf.getD 4 0 + 1 →
        decode buf = .error (.Incomplete (5 + buf.getD 4 0 + 1)))
    ∧ (∀ buf : List Nat, 6 ≤ buf.length → buf.take 2 = HEAD →
        5 + buf.getD 4 0 + 1 ≤ buf.length →
        buf.getD (5 + buf.getD 4 0) 0 ≠ sum (buf.take (5 + buf.getD 4 0)) →
        decode buf = .error .InvalidSum)
    ∧ (∀ buf : List Nat, 6 ≤ buf.length → buf.take 2 = HEAD →
        5 + buf.getD 4 0 + 1 ≤ buf.length →
        buf.getD (5 + buf.getD 4 0) 0 = sum (buf.take (5 + buf.getD 4 0)) →
        decode buf = .ok (buf.getD 2 0, buf.getD 3 0, (buf.drop 5).take (buf.getD 4 0))) := by
  refine ⟨?_, ?_, ?_, ?_, ?_⟩
  · intro buf h
    unfold decode
    rw [if_pos (by omega)]
  · intro buf h1 h2
    unfold decode
    rw [if_neg (by omega), if_pos h2]
  · intro buf h1 h2 h3
    unfold decode
    rw [if_neg (by omega), if_neg (not_not_intro h2), if_pos h3]
  · intro buf h1 h2 h3 h4
    unfold decode
    rw [if_neg (by omega), if_neg (not_not_intro h2), if_neg (by omega), if_pos h4]
  · intro buf h1 h2 h3 h4
    unfold decode
    rw [if_neg (by omega), if_neg (not_not_intro h2), if_neg (by omega),
      if_neg (not_not_intro h4)]

/-- Witness for C2: one concrete buffer per validation outcome, including the
two decode steps of the crate's own `test_decode`. -/
theorem decode_validation_order_witness :
    decode [0x57, 0xAB, 0x00] = .error (.Incomplete 6)
    ∧ decode [0x00, 0x01, 0x02, 0x03, 0x04, 0x05] = .error .InvalidHead
    ∧ decode [0x57, 0xAB, 0x00, 0x02, 0x08, 0x00] = .error (.Incomplete 14)
    ∧ decode [0x57, 0xAB, 0x00, 0x02, 0x00, 0xFF] = .error .InvalidSum
    ∧ decode [0x57, 0xAB, 0x00, 0x02, 0x00, 0x04] = .ok (0x00, 0x02, []) :=
  ⟨decode_validation_order.1 _ (by decide),
   decode_validation_order.2.1 _ (by decide) (by decide),
   decode_validation_order.2.2.1 _ (by decide) (by decide) (by decide),
   decode_validation_order.2.2.2.1 _ (by decide) (by decide) (by decide) (by decide),
   decode_validation_order.2.2.2.2 _ (by decide) (by decide) (by decide) (by decide)⟩

/-! ## Claim C3: single byte corruption -/

theorem encode_getD_zero (addr cmd : Nat) (p : List Nat) :
    (encode addr cmd p).getD 0 0 = 0x57 := by
  rw [encode_eq_cons]
  rfl

theorem encode_getD_one (addr cmd : Nat) (p : List Nat) :
    (encode addr cmd p).getD 1 0 = 0xAB := by
  rw [encode_eq_cons]
  rfl

theorem encode_forall_lt (addr cmd : Nat) (p : List Nat)
    (ha : addr < 256) (hc : cmd < 256) (hp : ∀ b ∈ p, b < 256)
    (hl : p.length ≤ 64) :
    ∀ b ∈ encode addr cmd p, b < 256 := by
  rw [encode_eq_cons]
  intro b hb
  simp only [List.mem_cons, List.mem_append, List.mem_singleton] at hb
  rcases hb with h | h | h | h | h | h | h | h
  · omega
  · omega
  · omega
  · omega
  · omega
  · exact hp b h
  · subst h
    exact sum_lt _
  · simp at h

/-- Counterexample to C3 as stated: in the valid frame
`encode 0 0 [2] = [0x57, 0xAB, 0x00, 0x00, 0x01, 0x02, 0x05]`, changing the
single length byte at offset 4 from 1 to 0 produces a buffer that decode
accepts (returning an empty payload, with the old payload byte 0x02 passing
as the checksum of the shortened frame) instead of failing with InvalidHead
or InvalidSum. -/
theorem decode_single_byte_flip_counterexample :
    decode ((encode 0x00 0x00 [0x02]).set 4 0x00) = .ok (0x00, 0x00, []) := by
  decide

/-- C3 (amended): for every valid frame and every change of one single byte
other than the length byte at offset 4 to a different value (without
re-deriving a matching checksum), decode of the modified frame fails with
InvalidHead when a header byte changed and InvalidSum otherwise; changing
the length byte may instead yield Incomplete, InvalidSum, or even a
successful decode of a shorter payload. -/
theorem decode_single_byte_flip (addr cmd : Nat) (p : List Nat) (i v : Nat)
    (ha : addr < 256) (hc : cmd < 256) (hp : ∀ b ∈ p, b < 256)
    (hl : p.length ≤ 64) (hi : i < 6 + p.length) (hi4 : i ≠ 4) (hv : v < 256)
    (hne : v ≠ (encode addr cmd p).getD i 0) :
    decode ((encode addr cmd p).set i v) =
      .error (if i < 2 then Error.InvalidHead else Error.InvalidSum) := by
  have hlen := length_encode addr cmd p
  have hbytes := encode_forall_lt addr cmd p ha hc hp hl
  have hGlen : ((encode addr cmd p).set i v).length = 6 + p.length := by
    rw [List.length_set, hlen]
  have e1 : ((encode addr cmd p).set i v).take 2 =
      ((encode addr cmd p).take 2).set i v := List.set_take
  by_cases h2 : i < 2
  · rw [if_pos h2]
    have hcond : ((encode addr cmd p).set i v).take 2 ≠ HEAD := by
      rw [e1, encode_take_two]
      interval_cases i
      · rw [encode_getD_zero] at hne
        simpa [HEAD] using hne
      · rw [encode_getD_one] at hne
        simpa [HEAD] using hne
    unfold decode
    rw [if_neg (by omega), if_pos hcond]
  · rw [if_neg h2]
    have hhead : ((encode addr cmd p).set i v).take 2 = HEAD := by
      rw [e1, encode_take_two]
      exact List.set_eq_of_length_le (by simp [HEAD]; omega)
    have h4 : ((encode addr cmd p).set i v).getD 4 0 = p.length := by
      rw [getD_set_ne _ _ _ _ hi4, encode_getD_four]
    have etake : ((encode addr cmd p).set i v).take (5 + p.length) =
        ((encode addr cmd p).take (5 + p.length)).set i v := List.set_take
    have hsumcond : ((encode addr cmd p).set i v).getD (5 + p.length) 0 ≠
        sum (((encode addr cmd p).set i v).take (5 + p.length)) := by
      rcases (by omega : i = 5 + p.length ∨ i < 5 + p.length) with he | hlt
      · subst he
        rw [getD_set_self _ _ _ (by omega), etake,
          List.set_eq_of_length_le (by rw [encode_take_body]; simp; omega),
          encode_take_body]
        rw [encode_getD_checksum] at hne
        exact hne
      · rw [getD_set_ne _ _ _ _ (by omega), encode_getD_checksum, etake,
          encode_take_body]
        refine (sum_set_ne _ i v (by simp; omega) hv ?_ ?_).symm
        · have hgd : (0x57 :: 0xAB :: addr :: cmd :: p.length :: p).getD i 0 =
              (encode addr cmd p).getD i 0 := by
            rw [← encode_take_body, getD_take_of_lt _ _ _ hlt]
          rw [hgd]
          exact getD_lt_of_forall _ i (by omega) hbytes
        · have hgd : (0x57 :: 0xAB :: addr :: cmd :: p.length :: p).getD i 0 =
              (encode addr cmd p).getD i 0 := by
            rw [← encode_take_body, getD_take_of_lt _ _ _ hlt]
          rw [hgd]
          exact hne
    unfold decode
    rw [if_neg (by omega), if_neg (not_not_intro hhead), h4, if_neg (by omega),
      if_pos hsumcond]

/-- Witness for the amended C3: corrupting the opcode byte of the frame from
the crate's `test_decode` yields InvalidSum. -/
theorem decode_single_byte_flip_witness :
    decode ((encode 0x00 0x02 [0x00]).set 3 0x01) = .error Error.InvalidSum :=
  decode_single_byte_flip 0x00 0x02 [0x00] 3 0x01 (by decide) (by decide)
    (by decide) (by decide) (by decide) (by decide) (by decide) (by decide)

/-! ## Claim C6: response decode failure policy -/

/-- C6: a payload whose length is wrong for a recognized reply opcode fails
with InvalidData (0x81 requires 8 bytes, 0x82 requires 1 byte, 0x88 requires
50 bytes, 0x8A requires at least 2 bytes and exactly 2+N bytes for declared
length byte N); an opcode outside the recognized set fails with InvalidCmd;
descriptor bytes that are not valid UTF-8 fail with the UTF-8 error; an
execution-status byte outside the known set fails with InvalidData. -/
theorem response_decode_failure_policy :
    (∀ data : List Nat, data.length ≠ 8 →
      Response.decode 0x81 data = .error .InvalidData)
    ∧ (∀ data : List Nat, data.length ≠ 1 →
      Response.decode 0x82 data = .error .InvalidData)
    ∧ (∀ data : List Nat, data.length ≠ 50 →
      Response.decode 0x88 data = .error .InvalidData)
    ∧ (∀ data : List Nat, data.length < 2 →
      Response.decode 0x8A data = .error .InvalidData)
    ∧ (∀ data : List Nat, data.length ≠ 2 + data.getD 1 0 →
      Response.decode 0x8A data = .error .InvalidData)
    ∧ (∀ cmd : Nat, cmd ∉ ([0x81, 0x82, 0x88, 0x8A] : List Nat) →
      ∀ data : List Nat, Response.decode cmd data = .error .InvalidCmd)
    ∧ (∀ b : Nat, b ∉ ([0x00, 0xE1, 0xE2, 0xE3, 0xE4, 0xE5, 0xE6] : List Nat) →
      Response.decode 0x82 [b] = .error .InvalidData) := by
  refine ⟨?_, ?_, ?_, ?_, ?_, ?_, ?_⟩
  · intro data h
    simp [Response.decode, h]
  · intro data h
    simp [Response.decode, h]
  · intro data h
    simp [Response.decode, h]
  · intro data h
    simp only [Response.decode]
    norm_num
    intro h2
    omega
  · intro data h
    rcases data with _ | ⟨t0, data⟩
    · simp [Response.decode]
    rcases data with _ | ⟨n, rest⟩
    · simp [Response.decode]
    have hL : ¬ (rest.length + 1 + 1 = 2 + n) := by
      simp only [List.length_cons, List.getD_cons_succ, List.getD_cons_zero] at h
      omega
    rcases (by omega : t0 = 0 ∨ t0 = 1 ∨ t0 = 2 ∨ 3 ≤ t0) with h0 | h0 | h0 | h0
    · subst h0
      simp [Response.decode, hL]
    · subst h0
      simp [Response.decode, hL]
    · subst h0
      simp [Response.decode, hL]
    · have e0 : ¬ (t0 = 0) := by omega
      have e1 : ¬ (t0 = 1) := by omega
      have e2 : ¬ (t0 = 2) := by omega
      simp [Response.decode, hL, e0, e1, e2]
  · intro cmd h data
    simp only [List.mem_cons, List.not_mem_nil, or_false, not_or] at h
    simp [Response.decode, h.1, h.2.1, h.2.2.1, h.2.2.2]
  · intro b h
    simp only [List.mem_cons, List.not_mem_nil, or_false, not_or] at h
    simp [Response.decode, CommandExecutionStatus.from_u8, h.1, h.2.1, h.2.2.1,
      h.2.2.2.1, h.2.2.2.2.1, h.2.2.2.2.2.1, h.2.2.2.2.2.2]

/-- Witness for C6: one concrete input per failure mode. -/
theorem response_decode_failure_policy_witness :
    Response.decode 0x81 [0x31] = .error .InvalidData
    ∧ Response.decode 0x82 [] = .error .InvalidData
    ∧ Response.decode 0x88 [0x00] = .error .InvalidData
    ∧ Response.decode 0x8A [0x00] = .error .InvalidData
    ∧ Response.decode 0x8A [0x00, 0x05, 0x61] = .error .InvalidData
    ∧ Response.decode 0x02 [] = .error .InvalidCmd
    ∧ Response.decode 0x82 [0x7F] = .error .InvalidData :=
  ⟨response_decode_failure_policy.1 _ (by decide),
   response_decode_failure_policy.2.1 _ (by decide),
   response_decode_failure_policy.2.2.1 _ (by decide),
   response_decode_failure_policy.2.2.2.1 _ (by decide),
   response_decode_failure_policy.2.2.2.2.1 _ (by decide),
   response_decode_failure_policy.2.2.2.2.2.1 _ (by decide) _,
   response_decode_failure_policy.2.2.2.2.2.2 _ (by decide)⟩

/-- The descriptor part of C6, stated separately for provability on the
exact shape the source checks: a recognized selector byte and a matching
declared length whose descriptor bytes are not valid UTF-8 surface the
UTF-8 validation error. -/
theorem response_decode_utf8_error (data : List Nat)
    (hlen : data.length = 2 + data.getD 1 0) (ht : data.getD 0 0 ≤ 2)
    (hu : utf8Valid ((data.drop 2).take (data.getD 1 0)) = false) :
    Response.decode 0x8A data = .error .Utf8 := by
  rcases data with _ | ⟨t0, data⟩
  · simp at hlen
  rcases data with _ | ⟨n, rest⟩
  · simp [List.getD_cons_succ] at hlen
  simp only [List.getD_cons_succ, List.getD_cons_zero, List.length_cons] at hlen ht hu
  have hn : rest.length = n := by omega
  have hdrop : (t0 :: n :: rest).drop 2 = rest := rfl
  rw [hdrop, ← hn, List.take_length] at hu
  have hL : rest.length + 1 + 1 = 2 + n := by omega
  rcases (by omega : t0 = 0 ∨ t0 = 1 ∨ t0 = 2) with h0 | h0 | h0 <;>
    subst h0 <;>
    simp [Response.decode, hL, ← hn, hu]

/-- Witness for the descriptor UTF-8 part of C6: a lone continuation byte is
not valid UTF-8. -/
theorem response_decode_utf8_error_witness :
    Response.decode 0x8A [0x00, 0x01, 0xFF] = .error .Utf8 :=
  response_decode_utf8_error [0x00, 0x01, 0xFF] (by decide) (by decide) (by decide)

/-! ## Claim C7: parameter-config reply decoding -/

/-- C7: decoding a 0x88 parameter-config reply of any payload length other
than 50 fails with InvalidData; decoding one of exactly 50 bytes yields the
operation mode from byte 0, the serial communication mode from byte 1, the
address from byte 2, the baud rate as a big-endian u32 from bytes 3..7, the
VID as a big-endian u16 from bytes 11..13, and the PID as a big-endian u16
from bytes 13..15. -/
theorem para_cfg_decode :
    (∀ data : List Nat, data.length ≠ 50 →
      Response.decode 0x88 data = .error .InvalidData)
    ∧ (∀ data : List Nat, data.length = 50 → ∃ cfg : ParaCfg,
      Response.decode 0x88 data = .ok (.GetParaCfg cfg)
      ∧ cfg.operation_mode = data.getD 0 0
      ∧ cfg.serial_communication_mode = data.getD 1 0
      ∧ cfg.addr = data.getD 2 0
      ∧ cfg.baud_rate = u32_be (data.getD 3 0) (data.getD 4 0) (data.getD 5 0) (data.getD 6 0)
      ∧ cfg.vid = u16_be (data.getD 11 0) (data.getD 12 0)
      ∧ cfg.pid = u16_be (data.getD 13 0) (data.getD 14 0)) := by
  constructor
  · intro data h
    simp [Response.decode, h]
  · intro data h
    refine ⟨{ operation_mode := data.getD 0 0
              serial_communication_mode := data.getD 1 0
              addr := data.getD 2 0
              baud_rate := u32_be (data.getD 3 0) (data.getD 4 0) (data.getD 5 0) (data.getD 6 0)
              todo_0 := (data.drop 7).take 4
              vid := u16_be (data.getD 11 0) (data.getD 12 0)
              pid := u16_be (data.getD 13 0) (data.getD 14 0)
              todo_1 := (data.drop 15).take 35 }, ?_, rfl, rfl, rfl, rfl, rfl, rfl⟩
    simp [Response.decode, h]

/-- Witness for C7 on a short reply and an all-zero 50-byte reply. -/
theorem para_cfg_decode_witness :
    Response.decode 0x88 [0x00] = .error .InvalidData
    ∧ ∃ cfg : ParaCfg,
      Response.decode 0x88 (List.replicate 50 0) = .ok (.GetParaCfg cfg)
      ∧ cfg.operation_mode = 0
      ∧ cfg.serial_communication_mode = 0
      ∧ cfg.addr = 0
      ∧ cfg.baud_rate = 0
      ∧ cfg.vid = 0
      ∧ cfg.pid = 0 :=
  ⟨para_cfg_decode.1 _ (by decide), para_cfg_decode.2 _ (by decide)⟩

/-! ## Claim C8: send-keys payload serialization -/

/-- C8: the send-keys command always serializes to an 8-byte payload whose
byte 0 is the modifier bit-set, byte 1 is 0, and bytes 2..8 hold the key
codes packed left-to-right with unused slots zero-filled; zero codes with
empty modifiers give the all-zero key-released payload, and one code K with
modifiers m gives [m, 0, K, 0, 0, 0, 0, 0]. -/
theorem send_keys_payload :
    (∀ (m : Nat) (codes : List Nat),
      (Command.data (.SendKbGeneralData m codes)).length = 8)
    ∧ (∀ (m : Nat) (codes : List Nat),
      Command.data (.SendKbGeneralData m codes) =
        m :: 0x00 :: (codes ++ List.replicate 6 0x00).take 6)
    ∧ Command.data (.SendKbGeneralData 0 []) = [0, 0, 0, 0, 0, 0, 0, 0]
    ∧ (∀ m K : Nat,
      Command.data (.SendKbGeneralData m [K]) = [m, 0, K, 0, 0, 0, 0, 0]) := by
  refine ⟨?_, fun m codes => rfl, by decide, fun m K => rfl⟩
  intro m codes
  simp [Command.data]

/-! ## Claim C10: more than six key codes are silently truncated -/

/-- C10: a send-keys command constructed with more than 6 key codes still
serializes to exactly an 8-byte payload carrying only the first 6 codes;
the codes beyond the sixth are dropped without any error signal. -/
theorem send_keys_truncation (m : Nat) (codes : List Nat)
    (h : 6 < codes.length) :
    Command.data (.SendKbGeneralData m codes) = m :: 0x00 :: codes.take 6
    ∧ (Command.data (.SendKbGeneralData m codes)).length = 8 := by
  constructor
  · simp only [Command.data]
    rw [List.take_append_of_le_length (by omega)]
  · simp [Command.data]

/-- Witness for C10 with seven key codes: the seventh code 15 is dropped. -/
theorem send_keys_truncation_witness :
    Command.data (.SendKbGeneralData 0x02 [9, 10, 11, 12, 13, 14, 15]) =
      [0x02, 0x00, 9, 10, 11, 12, 13, 14]
    ∧ (Command.data (.SendKbGeneralData 0x02 [9, 10, 11, 12, 13, 14, 15])).length = 8 :=
  send_keys_truncation 0x02 [9, 10, 11, 12, 13, 14, 15] (by decide)

/-! ## Claim C9: the ASCII key mapping table -/

/-- Counterexample to C9 as stated: the US-layout punctuation characters
colon 0x3A, semicolon 0x3B, less-than 0x3C, greater-than 0x3E, question
mark 0x3F, and at-sign 0x40 are all reachable on a US keyboard yet map to
none, so the mapping does not cover the full US-layout punctuation set. -/
theorem from_ascii_counterexample :
    KeyCode.from_ascii 0x3B = none
    ∧ KeyCode.from_ascii 0x3A = none
    ∧ KeyCode.from_ascii 0x3C = none
    ∧ KeyCode.from_ascii 0x3E = none
    ∧ KeyCode.from_ascii 0x3F = none
    ∧ KeyCode.from_ascii 0x40 = none := by
  decide

set_option maxRecDepth 8192

theorem from_ascii_lower_upper : ∀ v : Nat, v < 256 → (0x61 ≤ v ∧ v ≤ 0x7A) →
    KeyCode.from_ascii v = some (false, 0x04 + (v - 0x61))
    ∧ KeyCode.from_ascii (v - 0x20) = some (true, 0x04 + (v - 0x61)) := by
  decide

theorem from_ascii_some_iff : ∀ v : Nat, v < 256 →
    ((KeyCode.from_ascii v).isSome = true ↔
      (0x20 ≤ v ∧ v ≤ 0x39) ∨ v = 0x3D ∨ (0x41 ≤ v ∧ v ≤ 0x7E)) := by
  decide

/-- C9 (amended): from_ascii is a total pure function on bytes: every
lower-case ASCII letter maps unshifted and its upper-case counterpart maps
shifted to the same key code; digit 0 maps to the same key code as the
closing parenthesis, differing only in the shift flag; a byte maps to some
pair exactly when it is in 0x20..0x39 (space, the covered punctuation, and
the digits), is 0x3D, or is in 0x41..0x7E - which excludes the six
US-layout punctuation bytes 0x3A, 0x3B, 0x3C, 0x3E, 0x3F, 0x40 - and every
other byte maps to none. -/
theorem from_ascii_mapping (v : Nat) (hv : v < 256) :
    ((0x61 ≤ v ∧ v ≤ 0x7A) →
      KeyCode.from_ascii v = some (false, 0x04 + (v - 0x61))
      ∧ KeyCode.from_ascii (v - 0x20) = some (true, 0x04 + (v - 0x61)))
    ∧ (KeyCode.from_ascii 0x30 = some (false, 0x27)
      ∧ KeyCode.from_ascii 0x29 = some (true, 0x27))
    ∧ ((KeyCode.from_ascii v).isSome = true ↔
      (0x20 ≤ v ∧ v ≤ 0x39) ∨ v = 0x3D ∨ (0x41 ≤ v ∧ v ≤ 0x7E)) :=
  ⟨from_ascii_lower_upper v hv, by decide, from_ascii_some_iff v hv⟩

/-- Witness for the amended C9 at the letter a (0x61): lower case maps
unshifted and upper case (0x41) maps shifted to key code 0x04. -/
theorem from_ascii_mapping_witness :
    KeyCode.from_ascii 0x61 = some (false, 0x04)
    ∧ KeyCode.from_ascii 0x41 = some (true, 0x04) :=
  (from_ascii_mapping 0x61 (by decide)).1 (by decide)

/-! ## Prefix behaviour of decode on a growing buffer -/

theorem decode_take_incomplete (addr cmd : Nat) (p : List Nat) (k : Nat)
    (hk : k < 6 + p.length) :
    ∃ total, decode ((encode addr cmd p).take k) = .error (.Incomplete total)
      ∧ k < total ∧ total ≤ 6 + p.length := by
  have hlenF := length_encode addr cmd p
  have hlen : ((encode addr cmd p).take k).length = k := by
    rw [List.length_take]
    omega
  by_cases h6 : k < 6
  · refine ⟨6, ?_, h6, by omega⟩
    unfold decode
    rw [if_pos (by omega)]
  · refine ⟨6 + p.length, ?_, by omega, Nat.le_refl _⟩
    have hh : ((encode addr cmd p).take k).take 2 = HEAD := by
      rw [List.take_take, (by omega : min 2 k = 2), encode_take_two]
    have h4 : ((encode addr cmd p).take k).getD 4 0 = p.length := by
      rw [getD_take_of_lt _ _ _ (by omega), encode_getD_four]
    unfold decode
    rw [if_neg (by omega), if_neg (not_not_intro hh), h4, if_pos (by omega)]
    simp only [Except.error.injEq, Error.Incomplete.injEq]
    omega

end Ch9329

namespace Ch9329Serialport

open Ch9329

/-! ## Step lemmas for the receive loop -/

theorem recvGo_done (sched stream : List Nat) (len addr cmd : Nat)
    (data : List Nat) (resp : Response)
    (hdec : Ch9329.decode (stream.take len) = .ok (addr, cmd, data))
    (hresp : Response.decode cmd data = .ok resp) :
    recvGo stream sched len = .ok (addr, resp) := by
  rw [recvGo, hdec]
  simp [hresp]

theorem recvGo_eof (n : Nat) (rest stream : List Nat) (len total : Nat)
    (hdec : Ch9329.decode (stream.take len) = .error (.Incomplete total))
    (hmin : min (min n (total - len)) (stream.length - len) = 0) :
    recvGo stream (n :: rest) len = .error (.Io .UnexpectedEof) := by
  rw [recvGo, hdec]
  simp [hmin]

theorem recvGo_step (n : Nat) (rest stream : List Nat) (len total : Nat)
    (hdec : Ch9329.decode (stream.take len) = .error (.Incomplete total))
    (hpos : 0 < min (min n (total - len)) (stream.length - len)) :
    recvGo stream (n :: rest) len =
      recvGo stream rest (len + min (min n (total - len)) (stream.length - len)) := by
  rw [recvGo, hdec]
  have h0 : ¬ (n = 0 ∨ total - len = 0 ∨ stream.length - len = 0) := by omega
  simp [h0]

/-! ## Claim C5: structure of a receive call -/

/-- C5: a receive call starts with logical buffer length zero; while decode
of the accumulated prefix reports Incomplete total, one more read fills the
buffer range from the current length toward total (bounded by the bytes the
transport still holds); an effective read of zero bytes fails with an
end-of-stream error; and once decode succeeds the call returns the packet
address together with the typed response decoded from the opcode and
payload. -/
theorem recv_spec :
    (∀ sched stream : List Nat, recv sched stream = recvGo stream sched 0)
    ∧ (∀ (n : Nat) (rest stream : List Nat) (len total : Nat),
      Ch9329.decode (stream.take len) = .error (.Incomplete total) →
      min (min n (total - len)) (stream.length - len) = 0 →
      recvGo stream (n :: rest) len = .error (.Io .UnexpectedEof))
    ∧ (∀ (n : Nat) (rest stream : List Nat) (len total : Nat),
      Ch9329.decode (stream.take len) = .error (.Incomplete total) →
      0 < min (min n (total - len)) (stream.length - len) →
      recvGo stream (n :: rest) len =
        recvGo stream rest (len + min (min n (total - len)) (stream.length - len)))
    ∧ (∀ (sched stream : List Nat) (len addr cmd : Nat) (data : List Nat) (resp : Response),
      Ch9329.decode (stream.take len) = .ok (addr, cmd, data) →
      Response.decode cmd data = .ok resp →
      recvGo stream sched len = .ok (addr, resp)) :=
  ⟨fun _ _ => rfl,
   fun n rest stream len total hdec hmin => recvGo_eof n rest stream len total hdec hmin,
   fun n rest stream len total hdec hpos => recvGo_step n rest stream len total hdec hpos,
   fun sched stream len addr cmd data resp hdec hresp =>
     recvGo_done sched stream len addr cmd data resp hdec hresp⟩

/-- Witness for C5 on the frame `encode 0 0x82 [0]`: one instance of each
conjunct, with accumulated lengths 0, 0, 3 and 7. -/
theorem recv_spec_witness :
    recv [14] (Ch9329.encode 0x00 0x82 [0x00]) =
      recvGo (Ch9329.encode 0x00 0x82 [0x00]) [14] 0
    ∧ recvGo (Ch9329.encode 0x00 0x82 [0x00]) [0] 0 = .error (.Io .UnexpectedEof)
    ∧ recvGo (Ch9329.encode 0x00 0x82 [0x00]) [3, 11] 0 =
      recvGo (Ch9329.encode 0x00 0x82 [0x00]) [11] 3
    ∧ recvGo (Ch9329.encode 0x00 0x82 [0x00]) [] 7 =
      .ok (0x00, .SendKbGeneralData .Success) :=
  ⟨recv_spec.1 [14] _,
   recv_spec.2.1 0 [] _ 0 6 (by decide) (by decide),
   recv_spec.2.2.1 3 [11] _ 0 6 (by decide) (by decide),
   recv_spec.2.2.2 [] _ 7 0x00 0x82 [0x00] (.SendKbGeneralData .Success)
     (by decide) (by decide)⟩

/-! ## Claim C4: receive across many short reads -/

/-- Counterexample to C4 as stated: the transport delivers the valid frame
`encode 0 0x82 [0]` split as a 3-byte read, then an empty-but-not-closed
read of zero bytes, then the rest; recv fails with the end-of-stream io
error instead of producing the decoded response, because the source treats
any zero-byte read as end of stream. -/
theorem recv_empty_read_counterexample :
    recv [3, 0, 11] (Ch9329.encode 0x00 0x82 [0x00]) =
      .error (.Io .UnexpectedEof) := by
  decide

theorem recvGo_complete (addr cmd : Nat) (p : List Nat) (resp : Response)
    (hresp : Response.decode cmd p = .ok resp) :
    ∀ (sched : List Nat) (len : Nat),
      len ≤ 6 + p.length →
      (∀ n ∈ sched, 0 < n) →
      6 + p.length - len ≤ sched.length →
      recvGo (Ch9329.encode addr cmd p) sched len = .ok (addr, resp) := by
  have hflen := Ch9329.length_encode addr cmd p
  intro sched
  induction sched with
  | nil =>
    intro len hle hpos hcnt
    simp only [List.length_nil] at hcnt
    have hlen : len = 6 + p.length := by omega
    subst hlen
    have htake : (Ch9329.encode addr cmd p).take (6 + p.length) =
        Ch9329.encode addr cmd p := List.take_all_of_le (by omega)
    exact recvGo_done [] _ _ addr cmd p resp
      (by rw [htake, Ch9329.decode_encode]) hresp
  | cons n rest ih =>
    intro len hle hpos hcnt
    by_cases hfull : len = 6 + p.length
    · subst hfull
      have htake : (Ch9329.encode addr cmd p).take (6 + p.length) =
          Ch9329.encode addr cmd p := List.take_all_of_le (by omega)
      exact recvGo_done (n :: rest) _ _ addr cmd p resp
        (by rw [htake, Ch9329.decode_encode]) hresp
    · have hlt : len < 6 + p.length := by omega
      obtain ⟨total, hdec, hkt, hle2⟩ := Ch9329.decode_take_incomplete addr cmd p len hlt
      have hn : 0 < n := hpos n (List.mem_cons_self n rest)
      have hm : 0 < min (min n (total - len))
          ((Ch9329.encode addr cmd p).length - len) := by
        rw [hflen]
        omega
      rw [recvGo_step n rest _ len total hdec hm]
      simp only [List.length_cons] at hcnt
      refine ih (len + min (min n (total - len))
          ((Ch9329.encode addr cmd p).length - len)) ?_
        (fun k hk => hpos k (List.mem_cons_of_mem n hk)) ?_
      · rw [hflen]
        omega
      · rw [hflen]
        omega

/-- C4 (amended): a receive call against a transport that delivers the frame
split across many short reads still produces the correct decoded response,
provided every read delivers at least one byte; a read yielding zero bytes
while the frame is still incomplete instead fails with an end-of-stream
error. -/
theorem recv_short_reads (sched stream : List Nat) (addr cmd : Nat)
    (p : List Nat) (resp : Response)
    (hstream : stream = Ch9329.encode addr cmd p)
    (hresp : Response.decode cmd p = .ok resp)
    (hpos : ∀ n ∈ sched, 0 < n)
    (hcnt : 6 + p.length ≤ sched.length) :
    recv sched stream = .ok (addr, resp) := by
  subst hstream
  exact recvGo_complete addr cmd p resp hresp sched 0 (by omega) hpos (by omega)

/-- Witness for the amended C4: the 7-byte frame `encode 0 0x82 [0]`
delivered one byte per read decodes to the key-send acknowledgement. -/
theorem recv_short_reads_witness :
    recv [1, 1, 1, 1, 1, 1, 1] (Ch9329.encode 0x00 0x82 [0x00]) =
      .ok (0x00, .SendKbGeneralData .Success) :=
  recv_short_reads [1, 1, 1, 1, 1, 1, 1] _ 0x00 0x82 [0x00]
    (.SendKbGeneralData .Success) rfl (by decide) (by decide) (by decide)

end Ch9329Serialport
